import Mathlib

/-!
Verification of the structure-extraction engine of `scripts/extract-pptx.py`.

Each Python function relevant to the frozen claims is shallowly embedded as an
executable Lean definition; machine integers are `Nat` (all arithmetic in the
source is non-wrapping: byte values, counters, offsets), byte buffers are
`List Nat`, fallible code returns `Option`/`Except`, and unbounded loops carry
an explicit fuel argument (the source loops terminate via a visited set or a
strictly growing offset; theorems quantify over the fuel or fix one that is
provably sufficient).
-/

/-! ## Generic helpers -/

/-- Substring test on character lists: Python's `needle in hay`. -/
def hasSubCh (pat : List Char) : List Char → Bool
  | [] => pat.isEmpty
  | c :: rest => (pat.isPrefixOf (c :: rest)) || hasSubCh pat rest

/-- Python `needle in hay` for strings. -/
def strContains (needle hay : String) : Bool :=
  hasSubCh needle.toList hay.toList

/-- Python `sep.join(parts)`. -/
def joinSep (sep : String) : List String → String
  | [] => ""
  | [a] => a
  | a :: b :: rest => a ++ sep ++ joinSep sep (b :: rest)

/-- Insertion step of `sortNat` (Python `sorted` on ints, ascending). -/
def insertNat (x : Nat) : List Nat → List Nat
  | [] => [x]
  | y :: rest => if x ≤ y then x :: y :: rest else y :: insertNat x rest

/-- Python `sorted` on a list of ints. -/
def sortNat : List Nat → List Nat
  | [] => []
  | x :: rest => insertNat x (sortNat rest)

/-- Python `s[:n]` on strings. -/
def takeStr (n : Nat) (s : String) : String := String.mk (s.toList.take n)

/-! ## Text Run Extractor (`extract_formatted_runs`, lines 188-240) -/

/-- A text run as `python-pptx` exposes it: the raw attributes the extractor
reads.  `none` models a Python `None` attribute. -/
structure RawRun where
  text : String
  fontBold : Option Bool
  fontItalic : Option Bool
  fontUnderline : Option Bool
  hyperlinkAddress : Option String
  fontColorRgb : Option String
deriving DecidableEq, Repr

/-- `bold = run.font.bold if run.font.bold is not None else False`. -/
def boldOf (r : RawRun) : Bool := r.fontBold.getD false

/-- Same defaulting for italic. -/
def italicOf (r : RawRun) : Bool := r.fontItalic.getD false

/-- `underline = run.font.underline is not None and run.font.underline`. -/
def underlineOf (r : RawRun) : Bool := r.fontUnderline.getD false

/-- `url = run.hyperlink.address` when present and truthy (non-empty). -/
def urlOf (r : RawRun) : Option String :=
  match r.hyperlinkAddress with
  | some s => if s = "" then none else some s
  | none => none

/-- `font_color = str(run.font.color.rgb)` when present and truthy. -/
def colorOf (r : RawRun) : Option String :=
  match r.fontColorRgb with
  | some s => if s = "" then none else some s
  | none => none

/-- Serialized run dict: a `Bool` field models presence of the sparse key
(`bold: true` emitted iff the flag is set), `Option` fields model optional
keys (`url`, `font_color`). -/
structure RunDict where
  text : String
  bold : Bool
  italic : Bool
  underline : Bool
  url : Option String
  font_color : Option String
deriving DecidableEq, Repr

/-- Builds the per-run dict exactly as the loop body does. -/
def mkRunDict (r : RawRun) : RunDict :=
  { text := r.text, bold := boldOf r, italic := italicOf r,
    underline := underlineOf r, url := urlOf r, font_color := colorOf r }

/-- `if bold or italic or underline or url or font_color: has_any_formatting = True`. -/
def runHasFormatting (r : RawRun) : Bool :=
  boldOf r || italicOf r || underlineOf r || (urlOf r).isSome || (colorOf r).isSome

/-- The loop of `extract_formatted_runs`: accumulates dicts for non-empty-text
runs and tracks `has_any_formatting`. -/
def runsLoop : List RawRun → List RunDict → Bool → (List RunDict × Bool)
  | [], acc, hasF => (acc, hasF)
  | r :: rest, acc, hasF =>
    if r.text = "" then runsLoop rest acc hasF
    else runsLoop rest (acc ++ [mkRunDict r]) (hasF || runHasFormatting r)

/-- `extract_formatted_runs`: `return runs if has_any_formatting else []`. -/
def extract_formatted_runs (para : List RawRun) : List RunDict :=
  let res := runsLoop para [] false
  if res.2 then res.1 else []

/-- A paragraph as `extract_text_from_shape` reads it: its runs, its stripped
concatenated text, its indent level and whether `para.font.bold is False`. -/
structure ParaIn where
  runs : List RawRun
  text : String
  level : Nat
  fontBoldIsFalse : Bool
deriving DecidableEq, Repr

/-- Serialized paragraph item of `extract_text_from_shape`; `runs = none`
models the absent `runs` key. -/
structure ParaItem where
  text : String
  level : Nat
  is_bullet : Bool
  runs : Option (List RunDict)
deriving DecidableEq, Repr

/-- `extract_text_from_shape` (lines 615-637), over the shape's paragraphs;
`none` models both a shape without a text frame and an empty paragraph list. -/
def extract_text_from_shape (paras : List ParaIn) : Option (List ParaItem) :=
  let items := paras.filterMap (fun p =>
    if p.text = "" then none
    else
      let rs := extract_formatted_runs p.runs
      some { text := p.text, level := p.level,
             is_bullet := decide (p.level > 0) || p.fontBoldIsFalse,
             runs := if rs = [] then none else some rs })
  if items = [] then none else some items

/-! ## Animation Order Extractor (`extract_animation_map`, lines 243-279) -/

/-- First-occurrence index of `sid` (length of list if absent); mirrors the
position of the first matching `spTgt` in the traversal. -/
def firstIdx (sid : Nat) : List Nat → Nat
  | [] => 0
  | a :: rest => if a = sid then 0 else firstIdx sid rest + 1

/-- The timing-sequence loop: `order += 1` for every encountered target,
assignment only `if shape_id not in animation_map`.  The input list is the
sequence of `spid` targets in traversal-encounter order. -/
def animLoop : List Nat → List (Nat × Nat) → Nat → List (Nat × Nat)
  | [], m, _ => m
  | sid :: rest, m, order =>
    match List.lookup sid m with
    | none => animLoop rest (m ++ [(sid, order + 1)]) (order + 1)
    | some _ => animLoop rest m (order + 1)

/-- `extract_animation_map`: shape id ↦ 1-based entry order. -/
def extract_animation_map (spids : List Nat) : List (Nat × Nat) :=
  animLoop spids [] 0

/-! ### Lemmas about `animLoop` -/

lemma lookup_append_of_some {sid : Nat} {m l : List (Nat × Nat)} {v : Nat}
    (h : List.lookup sid m = some v) : List.lookup sid (m ++ l) = some v := by
  induction m with
  | nil => simp [List.lookup] at h
  | cons p rest ih =>
    rw [List.cons_append, List.lookup]
    rw [List.lookup] at h
    cases hb : (sid == p.1) with
    | true => rw [hb] at h; simpa using h
    | false => rw [hb] at h; exact ih h

lemma lookup_append_of_none {sid : Nat} {m l : List (Nat × Nat)}
    (h : List.lookup sid m = none) : List.lookup sid (m ++ l) = List.lookup sid l := by
  induction m with
  | nil => simp
  | cons p rest ih =>
    rw [List.cons_append, List.lookup]
    rw [List.lookup] at h
    cases hb : (sid == p.1) with
    | true => rw [hb] at h; simp at h
    | false => rw [hb] at h; exact ih h

lemma animLoop_lookup_some {rest : List Nat} {m : List (Nat × Nat)} {k sid v : Nat}
    (h : List.lookup sid m = some v) :
    List.lookup sid (animLoop rest m k) = some v := by
  induction rest generalizing m k with
  | nil => simpa [animLoop]
  | cons a tl ih =>
    rw [animLoop]
    cases hl : List.lookup a m with
    | none => exact ih (lookup_append_of_some h)
    | some w => exact ih h

lemma animLoop_lookup_none {rest : List Nat} {m : List (Nat × Nat)} {k sid : Nat}
    (h : List.lookup sid m = none) :
    List.lookup sid (animLoop rest m k) =
      if sid ∈ rest then some (k + firstIdx sid rest + 1) else none := by
  induction rest generalizing m k with
  | nil => simp [animLoop, h]
  | cons a tl ih =>
    rw [animLoop]
    by_cases ha : a = sid
    · subst ha
      simp only [h]
      have hm : List.lookup a (m ++ [(a, k + 1)]) = some (k + 1) := by
        rw [lookup_append_of_none h]; simp [List.lookup]
      rw [animLoop_lookup_some hm]
      simp [firstIdx]
    · have hsa : (sid = a) = False := by
        simp only [eq_iff_iff, iff_false]
        exact fun hc => ha hc.symm
      have hfi : firstIdx sid (a :: tl) = firstIdx sid tl + 1 := by
        simp [firstIdx, ha]
      cases hl : List.lookup a m with
      | none =>
        have hs : List.lookup sid (m ++ [(a, k + 1)]) = none := by
          rw [lookup_append_of_none h]
          simp only [List.lookup]
          have : (sid == a) = false := by simp [hsa]
          rw [this]
        rw [ih hs]
        simp only [List.mem_cons, hsa, false_or, hfi]
        by_cases ht : sid ∈ tl
        · simp only [if_pos ht]
          congr 1
          omega
        · simp only [if_neg ht]
      | some w =>
        rw [ih h]
        simp only [List.mem_cons, hsa, false_or, hfi]
        by_cases ht : sid ∈ tl
        · simp only [if_pos ht]
          congr 1
          omega
        · simp only [if_neg ht]

lemma lookup_none_key_ne {a : Nat} {m : List (Nat × Nat)}
    (h : List.lookup a m = none) : ∀ p ∈ m, p.1 ≠ a := by
  induction m with
  | nil => simp
  | cons q rest ih =>
    rw [List.lookup] at h
    by_cases hqa : a = q.1
    · simp [hqa] at h
    · have hbq : (a == q.1) = false := by simp [hqa]
      rw [hbq] at h
      intro p hp
      rcases List.mem_cons.mp hp with h2 | h2
      · subst h2; exact fun hc => hqa hc.symm
      · exact ih h p h2

lemma animLoop_values_mono {rest : List Nat} {m : List (Nat × Nat)} {k : Nat}
    (hb : ∀ p ∈ m, p.2 ≤ k)
    (hp : List.Pairwise (· < ·) (m.map Prod.snd))
    (hn : (m.map Prod.fst).Nodup) :
    List.Pairwise (· < ·) ((animLoop rest m k).map Prod.snd) ∧
      ((animLoop rest m k).map Prod.fst).Nodup := by
  induction rest generalizing m k with
  | nil => exact ⟨hp, hn⟩
  | cons a tl ih =>
    rw [animLoop]
    cases hnone : List.lookup a m with
    | none =>
      apply ih
      · intro p hpm
        rcases List.mem_append.mp hpm with h1 | h1
        · exact Nat.le_succ_of_le (hb p h1)
        · simp only [List.mem_singleton] at h1
          subst h1
          exact le_rfl
      · rw [List.map_append, List.pairwise_append]
        refine ⟨hp, by simp, ?_⟩
        intro x hx y hy
        simp only [List.map_cons, List.map_nil, List.mem_singleton] at hy
        subst hy
        rcases List.mem_map.mp hx with ⟨p, hpm, rfl⟩
        exact Nat.lt_succ_of_le (hb p hpm)
      · rw [List.map_append, List.nodup_append]
        refine ⟨hn, by simp, ?_⟩
        intro x hx
        simp only [List.map_cons, List.map_nil, List.mem_singleton]
        intro hxa
        subst hxa
        rcases List.mem_map.mp hx with ⟨p, hpm, hfst⟩
        exact lookup_none_key_ne hnone p hpm hfst
    | some w => exact ih (fun p hpm => Nat.le_succ_of_le (hb p hpm)) hp hn

/-- C5: for every timing-sequence target list, `extract_animation_map` assigns
each distinct shape id at most one order value (keys are distinct and lookup is
the value fixed at the id's first encounter, `firstIdx + 1`, never
overwritten), and across distinct shape ids the assigned values are strictly
increasing in first-encounter order (the map's entries are produced in
first-encounter order with pairwise increasing values). -/
theorem C5_animation_order_first_wins :
    ∀ spids : List Nat,
      (∀ sid, List.lookup sid (extract_animation_map spids) =
        if sid ∈ spids then some (firstIdx sid spids + 1) else none) ∧
      List.Pairwise (· < ·) ((extract_animation_map spids).map Prod.snd) ∧
      ((extract_animation_map spids).map Prod.fst).Nodup := by
  intro spids
  refine ⟨fun sid => ?_, ?_, ?_⟩
  · have h := @animLoop_lookup_none spids [] 0 sid (by simp [List.lookup])
    rw [extract_animation_map, h]
    simp
  · exact (@animLoop_values_mono spids [] 0 (by simp) (by simp) (by simp)).1
  · exact (@animLoop_values_mono spids [] 0 (by simp) (by simp) (by simp)).2

example : extract_animation_map [5, 7, 5, 9] = [(5, 1), (7, 2), (9, 4)] := by rfl

/-! ### Lemmas about `extract_formatted_runs` -/

lemma runsLoop_characterization :
    ∀ (para : List RawRun) (acc : List RunDict) (h : Bool),
      runsLoop para acc h =
        (acc ++ (para.filter (fun r => r.text != "")).map mkRunDict,
         h || (para.filter (fun r => r.text != "")).any runHasFormatting) := by
  intro para
  induction para with
  | nil => intro acc h; simp [runsLoop]
  | cons r rest ih =>
    intro acc h
    rw [runsLoop]
    by_cases ht : r.text = ""
    · rw [if_pos ht, ih]
      have hf : (r.text != "") = false := by simp [ht]
      simp [List.filter_cons, hf]
    · rw [if_neg ht, ih]
      have hf : (r.text != "") = true := by simp [ht]
      simp [List.filter_cons, hf, List.append_assoc, Bool.or_assoc]

lemma extract_formatted_runs_eq (para : List RawRun) :
    extract_formatted_runs para =
      if (para.filter (fun r => r.text != "")).any runHasFormatting then
        (para.filter (fun r => r.text != "")).map mkRunDict
      else [] := by
  rw [extract_formatted_runs, runsLoop_characterization]
  simp

/-- C9: a paragraph emits a `runs` array only if at least one run carries
non-default formatting.  First conjunct: if no run of any paragraph carries
formatting, every serialized item has no `runs` field.  Second conjunct: a
paragraph of non-empty runs with exactly one bold run and no other formatting
yields a `runs` array whose length equals the run count, with exactly one
entry carrying `bold: true`. -/
theorem C9_runs_array_emission :
    (∀ (paras : List ParaIn) (items : List ParaItem),
        (∀ p ∈ paras, ∀ r ∈ p.runs, runHasFormatting r = false) →
        extract_text_from_shape paras = some items →
        ∀ it ∈ items, it.runs = none) ∧
    (∀ para : List RawRun,
        (∀ r ∈ para, r.text ≠ "") →
        para.countP (fun r => boldOf r) = 1 →
        (∀ r ∈ para, italicOf r = false ∧ underlineOf r = false ∧
          urlOf r = none ∧ colorOf r = none) →
        (extract_formatted_runs para).length = para.length ∧
        (extract_formatted_runs para).countP (fun d => d.bold) = 1) := by
  constructor
  · intro paras items hfmt hsome it hit
    simp only [extract_text_from_shape] at hsome
    split at hsome
    · exact absurd hsome (by simp)
    · rcases Option.some.inj hsome with rfl
      rcases List.mem_filterMap.mp hit with ⟨p, hp, hf⟩
      by_cases ht : p.text = ""
      · rw [if_pos ht] at hf; exact absurd hf (by simp)
      · rw [if_neg ht] at hf
        have hrs : extract_formatted_runs p.runs = [] := by
          rw [extract_formatted_runs_eq]
          have hany : (p.runs.filter (fun r => r.text != "")).any runHasFormatting = false := by
            rw [List.any_eq_false]
            intro r hr
            simp only [Bool.not_eq_true]
            exact hfmt p hp r (List.mem_filter.mp hr).1
          rw [hany]
          simp
        rcases Option.some.inj hf with rfl
        simp [hrs]
  · intro para hne hbold hplain
    have hfil : para.filter (fun r => r.text != "") = para := by
      rw [List.filter_eq_self]
      intro r hr
      simp [hne r hr]
    have hany : para.any runHasFormatting = true := by
      rw [List.any_eq_true]
      have hpos : 0 < para.countP (fun r => boldOf r) := by omega
      rcases List.countP_pos_iff.mp hpos with ⟨r, hr, hb⟩
      exact ⟨r, hr, by simp [runHasFormatting, hb]⟩
    rw [extract_formatted_runs_eq, hfil, hany]
    simp only [if_true]
    constructor
    · exact List.length_map _ _
    · rw [List.countP_map]
      have hcomp : ((fun d : RunDict => d.bold) ∘ mkRunDict) = (fun r => boldOf r) := rfl
      rw [hcomp]
      exact hbold

/-- A plain (unformatted, non-empty) run used by the C9 witness. -/
def c9PlainRun : RawRun := ⟨"plain", none, none, none, none, none⟩

/-- A bold run used by the C9 witness. -/
def c9BoldRun : RawRun := ⟨"bolded", some true, none, none, none, none⟩

/-- Witness for C9: a one-paragraph shape with a single unformatted run
serializes without a `runs` field, and a three-run paragraph with one bold run
serializes three run dicts of which exactly one is bold. -/
theorem C9_runs_array_emission_witness :
    (∀ it ∈ [({ text := "plain", level := 0, is_bullet := false,
                runs := none } : ParaItem)], it.runs = none) ∧
    ((extract_formatted_runs [c9PlainRun, c9BoldRun, c9PlainRun]).length = 3 ∧
      (extract_formatted_runs [c9PlainRun, c9BoldRun, c9PlainRun]).countP
        (fun d => d.bold) = 1) := by
  constructor
  · exact C9_runs_array_emission.1 [⟨[c9PlainRun], "plain", 0, false⟩] _
      (by decide) (by rfl)
  · have h := C9_runs_array_emission.2 [c9PlainRun, c9BoldRun, c9PlainRun]
      (by decide) (by decide) (by decide)
    simpa using h

/-! ## Legacy Metafile Image Recoverer (`extract_emf_embedded_image`,
lines 640-693).  Byte buffers are `List Nat` with values < 256. -/

/-- Byte-list prefix test (used for signature matching). -/
def isPreB : List Nat → List Nat → Bool
  | [], _ => true
  | _ :: _, [] => false
  | a :: as, b :: bs => a == b && isPreB as bs

/-- Python `bytes.find`: first index where `pat` occurs in `hay`, else `none`
(Python's `-1`). -/
def findSub (pat : List Nat) : List Nat → Option Nat
  | [] => if isPreB pat [] then some 0 else none
  | b :: rest =>
    if isPreB pat (b :: rest) then some 0
    else
      match findSub pat rest with
      | some i => some (i + 1)
      | none => none

/-- Little-endian unsigned 32-bit read at `pos` (`struct.unpack('<II', ...)`;
under the loop guard all four bytes are in range, so the default 0 is never
used). -/
def u32le (data : List Nat) (pos : Nat) : Nat :=
  data.getD pos 0 + 256 * data.getD (pos + 1) 0 +
    65536 * data.getD (pos + 2) 0 + 16777216 * data.getD (pos + 3) 0

/-- The `GDIC` identifier bytes. -/
def gdicMark : List Nat := [71, 68, 73, 67]

/-- JPEG start-of-image signature `FF D8 FF`. -/
def jpgSig : List Nat := [255, 216, 255]

/-- JPEG end-of-image marker `FF D9`. -/
def eoiMark : List Nat := [255, 217]

/-- PNG signature bytes. -/
def pngSig : List Nat := [137, 80, 78, 71, 13, 10, 26, 10]

/-- The `IEND` chunk tag bytes. -/
def iendMark : List Nat := [73, 69, 78, 68]

/-- PNG arm of the comment-record inspection (`png_sig` search, IEND-delimited,
`iend_pos + 8` keeps IEND plus CRC). -/
def tryPng (comment_data : List Nat) : Option (List Nat × String) :=
  match findSub pngSig comment_data with
  | some png_pos =>
    let png_data := comment_data.drop png_pos
    match findSub iendMark png_data with
    | some iend_pos =>
      if iend_pos > 0 then some (png_data.take (iend_pos + 8), "png") else none
    | none => none
  | none => none

/-- Inspection of one `EMR_COMMENT` payload: length and `GDIC` checks, then
the JPEG search (EOI-delimited, `eoi_pos + 2` keeps the marker), then the PNG
search. -/
def tryComment (comment_data : List Nat) : Option (List Nat × String) :=
  if comment_data.length > 8 then
    if (comment_data.drop 4).take 4 = gdicMark then
      match findSub jpgSig comment_data with
      | some jpg_pos =>
        let jpg_data := comment_data.drop jpg_pos
        match findSub eoiMark jpg_data with
        | some eoi_pos =>
          if eoi_pos > 0 then some (jpg_data.take (eoi_pos + 2), "jpg")
          else tryPng comment_data
        | none => tryPng comment_data
      | none => tryPng comment_data
    else none
  else none

/-- The record-scanning loop (`while pos < len(emf_data) - 8`): reads the
8-byte record header, inspects type-70 comment records, halts on type 14 or a
zero-size record, otherwise advances by `record_size`.  `fuel` bounds the
iterations; `.error ()` reports fuel exhaustion (shown impossible with fuel
`data.length` in C7). -/
def emfScan : Nat → List Nat → Nat → Except Unit (Option (List Nat × String))
  | 0, data, pos => if pos < data.length - 8 then .error () else .ok none
  | fuel + 1, data, pos =>
    if pos < data.length - 8 then
      let record_type := u32le data pos
      let record_size := u32le data (pos + 4)
      let found : Option (List Nat × String) :=
        if record_type = 70 then
          tryComment ((data.drop (pos + 8)).take (record_size - 8))
        else none
      match found with
      | some res => .ok (some res)
      | none =>
        if record_type = 14 ∨ record_size = 0 then .ok none
        else emfScan fuel data (pos + record_size)
    else .ok none

/-- `extract_emf_embedded_image`, run with the provably sufficient fuel
`data.length`. -/
def extract_emf_embedded_image (emf_data : List Nat) : Option (List Nat × String) :=
  match emfScan emf_data.length emf_data 0 with
  | .ok r => r
  | .error _ => none

/-! ### Lemmas about the scan loop -/

lemma emfScan_no_fuel_exhaustion :
    ∀ (fuel : Nat) (data : List Nat) (pos : Nat),
      data.length ≤ fuel + pos →
      ∃ r, emfScan fuel data pos = .ok r := by
  intro fuel
  induction fuel with
  | zero =>
    intro data pos h
    rw [emfScan, if_neg (by omega)]
    exact ⟨none, rfl⟩
  | succ fuel ih =>
    intro data pos h
    simp only [emfScan]
    by_cases hc : pos < data.length - 8
    · simp only [if_pos hc]
      split
    
      · exact ⟨_, rfl⟩
      · by_cases hb : u32le data pos = 14 ∨ u32le data (pos + 4) = 0
        · rw [if_pos hb]; exact ⟨none, rfl⟩
        · rw [if_neg hb]
          apply ih
          have hrs : u32le data (pos + 4) ≠ 0 := fun h0 => hb (Or.inr h0)
          omega
    · rw [if_neg hc]; exact ⟨none, rfl⟩

/-- C7: for every input byte buffer the record-scanning loop terminates
within `data.length` iterations — `emfScan` with that fuel never exhausts it
and completes with a definite outcome (halting on an EOF-type record, a
zero-length record, a successful extraction, or buffer exhaustion). -/
theorem C7_record_scan_terminates :
    ∀ data : List Nat, ∃ r, emfScan data.length data 0 = Except.ok r := by
  intro data
  exact emfScan_no_fuel_exhaustion data.length data 0 (by omega)

lemma isPreB_cons {a : Nat} {pat l : List Nat} (h : isPreB (a :: pat) l = true) :
    ∃ t, l = a :: t ∧ isPreB pat t = true := by
  cases l with
  | nil => simp [isPreB] at h
  | cons b bs =>
    rw [isPreB] at h
    rcases Bool.and_eq_true_iff.mp h with ⟨h1, h2⟩
    have hab : a = b := by simpa using h1
    exact ⟨bs, by rw [hab], h2⟩

lemma findSub_isPreB {pat : List Nat} :
    ∀ {hay : List Nat} {i : Nat}, findSub pat hay = some i →
      isPreB pat (hay.drop i) = true := by
  intro hay
  induction hay with
  | nil =>
    intro i h
    rw [findSub] at h
    by_cases hp : isPreB pat [] = true
    · rw [if_pos hp] at h
      rcases Option.some.inj h with rfl
      simpa using hp
    · rw [if_neg hp] at h; simp at h
  | cons b bs ih =>
    intro i h
    rw [findSub] at h
    by_cases hp : isPreB pat (b :: bs) = true
    · rw [if_pos hp] at h
      rcases Option.some.inj h with rfl
      simpa using hp
    · rw [if_neg hp] at h
      cases hf : findSub pat bs with
      | none => rw [hf] at h; simp at h
      | some j =>
        rw [hf] at h
        rcases Option.some.inj h with rfl
        simpa using ih hf

lemma dropTakeSwap {α : Type} : ∀ (m n : Nat) (l : List α),
    (l.take n).drop m = (l.drop m).take (n - m) := by
  intro m
  induction m with
  | zero => intro n l; simp
  | succ m ih =>
    intro n l
    cases l with
    | nil => simp
    | cons a t =>
      cases n with
      | zero => simp
      | succ n => simpa using ih n t

lemma jpg_slice_format {l t : List Nat} {ep : Nat}
    (hl : l = 255 :: 216 :: 255 :: t)
    (hfind : findSub eoiMark l = some ep) (hpos : 0 < ep) :
    (l.take (ep + 2)).take 3 = [255, 216, 255] ∧
      (l.take (ep + 2)).drop ((l.take (ep + 2)).length - 2) = [255, 217] := by
  have hpre := findSub_isPreB hfind
  rw [eoiMark] at hpre
  rcases isPreB_cons hpre with ⟨t1, hd1, h2⟩
  rcases isPreB_cons h2 with ⟨t2, hd2, _⟩
  have hdrop : l.drop ep = 255 :: 217 :: t2 := by rw [hd1, hd2]
  have hep2 : 2 ≤ ep := by
    rcases ep with _ | ep1
    · omega
    · rcases ep1 with _ | ep2
      · rw [hl] at hdrop
        simp at hdrop
      · omega
  have hlen : ep + 2 ≤ l.length := by
    have h1 : (l.drop ep).length = l.length - ep := List.length_drop ep l
    rw [hdrop] at h1
    simp at h1
    omega
  constructor
  · rw [List.take_take]
    have hmin : min 3 (ep + 2) = 3 := by omega
    rw [hmin, hl]
    rfl
  · have hlt : (l.take (ep + 2)).length = ep + 2 := by
      rw [List.length_take]
      omega
    rw [hlt]
    have : ep + 2 - 2 = ep := by omega
    rw [this, dropTakeSwap]
    have : ep + 2 - ep = 2 := by omega
    rw [this, hdrop]
    rfl

lemma tryPng_ext {cd b : List Nat} {e : String}
    (h : tryPng cd = some (b, e)) : e = "png" := by
  simp only [tryPng] at h
  split at h
  · split at h
    · split at h
      · exact (congrArg Prod.snd (Option.some.inj h)).symm
      · simp at h
    · simp at h
  · simp at h

lemma tryComment_jpg {cd b : List Nat}
    (h : tryComment cd = some (b, "jpg")) :
    ∃ jp ep, findSub jpgSig cd = some jp ∧
      findSub eoiMark (cd.drop jp) = some ep ∧ 0 < ep ∧
      b = (cd.drop jp).take (ep + 2) := by
  simp only [tryComment] at h
  split at h
  swap
  · simp at h
  split at h
  swap
  · simp at h
  split at h
  · rename_i jp hj
    split at h
    · rename_i ep he
      split at h
      · rename_i hp
        exact ⟨jp, ep, hj, he, hp, (congrArg Prod.fst (Option.some.inj h)).symm⟩
      · exact absurd (tryPng_ext h) (by decide)
    · exact absurd (tryPng_ext h) (by decide)
  · exact absurd (tryPng_ext h) (by decide)

lemma emfScan_jpg_format :
    ∀ (fuel : Nat) (data : List Nat) (pos : Nat) (b : List Nat),
      emfScan fuel data pos = .ok (some (b, "jpg")) →
      b.take 3 = [255, 216, 255] ∧ b.drop (b.length - 2) = [255, 217] := by
  intro fuel
  induction fuel with
  | zero =>
    intro data pos b h
    rw [emfScan] at h
    split at h <;> simp at h
  | succ fuel ih =>
    intro data pos b h
    simp only [emfScan] at h
    split at h
    swap
    · simp at h
    split at h
    · rename_i res hres
      have hrb : res = (b, "jpg") := by simpa using h
      subst hrb
      by_cases hr : u32le data pos = 70
      · rw [if_pos hr] at hres
        obtain ⟨jp, ep, hj, he, hpo, hbb⟩ := tryComment_jpg hres
        have hpre := findSub_isPreB hj
        rw [jpgSig] at hpre
        rcases isPreB_cons hpre with ⟨t1, hd1, hp2⟩
        rcases isPreB_cons hp2 with ⟨t2, hd3, hp3⟩
        rcases isPreB_cons hp3 with ⟨t3, hd4, _⟩
        have hshape :
            ((data.drop (pos + 8)).take (u32le data (pos + 4) - 8)).drop jp =
              255 :: 216 :: 255 :: t3 := by
          rw [hd1, hd3, hd4]
        have hfmt := jpg_slice_format hshape he hpo
        rw [hbb]
        exact hfmt
      · rw [if_neg hr] at hres
        simp at hres
    · split at h
      · simp at h
      · exact ih data (pos + u32le data (pos + 4)) b h

/-- C6 (amended): whenever the metafile recoverer returns bytes tagged `jpg`
— which happens exactly when the scan reaches a GDIC comment record
containing a JPEG SOI signature followed by an EOI marker, before any
EOF-type or zero-length record halts it and before any earlier PNG match —
the returned bytes begin `FF D8 FF` and end `FF D9`.  The claim's
unconditional "for every buffer containing such a record somewhere" form is
refuted by `C6_counterexample`, where an earlier EOF-type record halts the
scan first. -/
theorem C6_jpg_format :
    ∀ (data b : List Nat),
      extract_emf_embedded_image data = some (b, "jpg") →
      b.take 3 = [255, 216, 255] ∧ b.drop (b.length - 2) = [255, 217] := by
  intro data b h
  rw [extract_emf_embedded_image] at h
  cases hs : emfScan data.length data 0 with
  | ok r =>
    rw [hs] at h
    exact emfScan_jpg_format data.length data 0 b (by rw [hs]; simpa using h)
  | error e => rw [hs] at h; simp at h

/-- A single-record buffer: one comment record (type 70, size 22) whose GDIC
payload holds a JPEG SOI, one data byte, and the EOI marker. -/
def c6GoodBuf : List Nat :=
  [70, 0, 0, 0, 22, 0, 0, 0, 0, 0, 0, 0, 71, 68, 73, 67, 255, 216, 255, 170, 255, 217]

/-- Witness for C6: on `c6GoodBuf` the recoverer returns a `jpg`-tagged byte
string whose first 3 bytes are `FF D8 FF` and whose last 2 bytes are `FF D9`. -/
theorem C6_jpg_format_witness :
    extract_emf_embedded_image c6GoodBuf =
      some ([255, 216, 255, 170, 255, 217], "jpg") ∧
    ([255, 216, 255, 170, 255, 217] : List Nat).take 3 = [255, 216, 255] ∧
    ([255, 216, 255, 170, 255, 217] : List Nat).drop
      (([255, 216, 255, 170, 255, 217] : List Nat).length - 2) = [255, 217] := by
  refine ⟨by rfl, ?_⟩
  exact C6_jpg_format c6GoodBuf [255, 216, 255, 170, 255, 217] (by rfl)

/-- An EOF-type (14) record followed by the same valid GDIC/JPEG comment
record as `c6GoodBuf`, now at offset 8. -/
def c6BadBuf : List Nat :=
  [14, 0, 0, 0, 8, 0, 0, 0, 70, 0, 0, 0, 22, 0, 0, 0, 0, 0, 0, 0, 71, 68, 73, 67,
   255, 216, 255, 170, 255, 217]

/-- C6 counterexample: `c6BadBuf` contains, inside a comment-type (70) record
at offset 8 whose payload carries the GDIC marker, a JPEG SOI followed by an
EOI marker — the claim's premise — yet the recoverer returns nothing,
because the preceding EOF-type (14) record halts the scan first.  So the
claim's unconditional form is false. -/
theorem C6_counterexample :
    u32le c6BadBuf 8 = 70 ∧
    ((c6BadBuf.drop 16).take (u32le c6BadBuf 12 - 8)).length > 8 ∧
    (((c6BadBuf.drop 16).take (u32le c6BadBuf 12 - 8)).drop 4).take 4 = gdicMark ∧
    findSub jpgSig ((c6BadBuf.drop 16).take (u32le c6BadBuf 12 - 8)) = some 8 ∧
    findSub eoiMark (((c6BadBuf.drop 16).take (u32le c6BadBuf 12 - 8)).drop 8) =
      some 4 ∧
    extract_emf_embedded_image c6BadBuf = none := by
  exact ⟨rfl, by decide, rfl, by decide, by decide, by rfl⟩

/-! ## Diagram (SmartArt) Reconstructor (`extract_smart_art`, lines 406-612) -/

/-- A diagram point as stored in `node_map` (line 471): type, gathered text,
`parOf` children accumulated from the connection list, and the icon fields. -/
structure DgmNode where
  ntype : String
  text : String
  children_ids : List String
  icon : Option String
  icon_alt : Option String
deriving DecidableEq, Repr

/-- `node_map` keeps its Python dict insertion order: an association list
keyed by `modelId` (keys are unique in a dict). -/
abbrev NodeMap := List (String × DgmNode)

/-- In-place value update of the entry with key `key`
(Python `node_map[owner]['icon'] = ...`). -/
def setNode : NodeMap → String → DgmNode → NodeMap
  | [], _, _ => []
  | (k, v) :: rest, key, nv =>
    if k = key then (k, nv) :: rest else (k, v) :: setNode rest key nv

/-- Sibling inspection inside `find_data_owner` (lines 520-525): the first
sibling of `curr` with a `presOf` mapping to a non-root data id. -/
def sibSearch (visual_to_data : List (String × String)) (data_root_id : Option String)
    (curr : String) : List String → Option String
  | [] => none
  | sib :: rest =>
    if sib ≠ curr then
      match List.lookup sib visual_to_data with
      | some did =>
        if some did ≠ data_root_id then some did
        else sibSearch visual_to_data data_root_id curr rest
      | none => sibSearch visual_to_data data_root_id curr rest
    else sibSearch visual_to_data data_root_id curr rest

/-- The `while curr and curr not in visited` walk of `find_data_owner`
(lines 510-527); `curr = ""` models a falsy `curr`, `fuel` bounds the
iterations (the Python loop is bounded by the visited set; every theorem
below holds for every fuel). -/
def find_data_owner_loop (visual_to_data visual_parent : List (String × String))
    (visual_children : List (String × List String)) (data_root_id : Option String) :
    Nat → String → List String → Option String
  | 0, _, _ => none
  | fuel + 1, curr, visited =>
    if curr = "" then none
    else if visited.contains curr then none
    else
      let hit1 : Option String :=
        match List.lookup curr visual_to_data with
        | some did => if some did ≠ data_root_id then some did else none
        | none => none
      match hit1 with
      | some d => some d
      | none =>
        let parent := List.lookup curr visual_parent
        let hit2 : Option String :=
          match parent with
          | some p =>
            if p ≠ "" then
              sibSearch visual_to_data data_root_id curr
                ((List.lookup p visual_children).getD [])
            else none
          | none => none
        match hit2 with
        | some d => some d
        | none =>
          match parent with
          | some p => find_data_owner_loop visual_to_data visual_parent
              visual_children data_root_id fuel p (curr :: visited)
          | none => none

/-- `find_data_owner(vid)`: the walk started with an empty visited set. -/
def find_data_owner (visual_to_data visual_parent : List (String × String))
    (visual_children : List (String × List String)) (data_root_id : Option String)
    (fuel : Nat) (vid : String) : Option String :=
  find_data_owner_loop visual_to_data visual_parent visual_children data_root_id
    fuel vid []

/-- The loop body of the icon re-association pass (lines 529-537), executed
for key `mid` against the current (possibly already mutated) map: transfer
only if the resolved owner is a different existing node without an icon;
the donor's icon fields are then cleared. -/
def reassign_icon_step (visual_to_data visual_parent : List (String × String))
    (visual_children : List (String × List String)) (data_root_id : Option String)
    (fuel : Nat) (m : NodeMap) (mid : String) : NodeMap :=
  match List.lookup mid m with
  | none => m
  | some node =>
    if node.icon.isSome then
      match find_data_owner visual_to_data visual_parent visual_children
          data_root_id fuel mid with
      | some owner =>
        if owner ≠ mid then
          match List.lookup owner m with
          | some ow =>
            if ow.icon = none then
              setNode
                (setNode m owner
                  { ow with icon := node.icon, icon_alt := node.icon_alt })
                mid { node with icon := none, icon_alt := none }
            else m
          | none => m
        else m
      | none => m
    else m

/-- The icon re-association pass: `for mid, node in node_map.items()` over the
keys fixed at entry, reading and writing the evolving map. -/
def reassign_icons (visual_to_data visual_parent : List (String × String))
    (visual_children : List (String × List String)) (data_root_id : Option String)
    (fuel : Nat) (m : NodeMap) : NodeMap :=
  (m.map Prod.fst).foldl
    (reassign_icon_step visual_to_data visual_parent visual_children data_root_id fuel) m

/-- The icons attached across the node map, in entry order. -/
def iconsOf (m : NodeMap) : List String :=
  m.filterMap (fun kv => kv.2.icon)

/-- Whether the loop body would transfer the icon at key `mid` of map `m`. -/
def transferApplicable (visual_to_data visual_parent : List (String × String))
    (visual_children : List (String × List String)) (data_root_id : Option String)
    (fuel : Nat) (m : NodeMap) (mid : String) : Bool :=
  match List.lookup mid m with
  | none => false
  | some node =>
    node.icon.isSome &&
      (match find_data_owner visual_to_data visual_parent visual_children
          data_root_id fuel mid with
       | some owner =>
         owner != mid &&
           (match List.lookup owner m with
            | some ow => ow.icon == none
            | none => false)
       | none => false)

/-- A map on which no transfer applies anywhere. -/
def stableMap (visual_to_data visual_parent : List (String × String))
    (visual_children : List (String × List String)) (data_root_id : Option String)
    (fuel : Nat) (m : NodeMap) : Bool :=
  (m.map Prod.fst).all (fun k =>
    !(transferApplicable visual_to_data visual_parent visual_children data_root_id
        fuel m k))

/-! ### Lemmas about the icon re-association pass -/

lemma keys_setNode (m : NodeMap) (k : String) (v : DgmNode) :
    (setNode m k v).map Prod.fst = m.map Prod.fst := by
  induction m with
  | nil => rfl
  | cons p rest ih =>
    rcases p with ⟨k0, v0⟩
    rw [setNode]
    by_cases hk : k0 = k
    · rw [if_pos hk]; simp [hk]
    · rw [if_neg hk]; simp [ih]

lemma lookup_setNode_ne {m : NodeMap} {k k' : String} {v : DgmNode}
    (h : k' ≠ k) : List.lookup k' (setNode m k v) = List.lookup k' m := by
  induction m with
  | nil => rfl
  | cons p rest ih =>
    rcases p with ⟨k0, v0⟩
    rw [setNode]
    by_cases hk : k0 = k
    · rw [if_pos hk]
      subst hk
      rw [List.lookup, List.lookup]
      have hb : (k' == k0) = false := by simpa using h
      rw [hb]
    · rw [if_neg hk]
      rw [List.lookup, List.lookup]
      cases hb : (k' == k0) with
      | true => rfl
      | false => exact ih

lemma iconsOf_cons (k0 : String) (v0 : DgmNode) (rest : NodeMap) :
    iconsOf ((k0, v0) :: rest) = v0.icon.toList ++ iconsOf rest := by
  cases h : v0.icon <;> simp [iconsOf, List.filterMap_cons, h, Option.toList]

lemma iconsOf_setNode {m : NodeMap} {k : String} {v : DgmNode} (v' : DgmNode)
    (hnd : (m.map Prod.fst).Nodup) (hlk : List.lookup k m = some v) :
    List.Perm (iconsOf (setNode m k v') ++ v.icon.toList)
      (iconsOf m ++ v'.icon.toList) := by
  induction m with
  | nil => simp [List.lookup] at hlk
  | cons p rest ih =>
    rcases p with ⟨k0, v0⟩
    rw [setNode]
    by_cases hk : k0 = k
    · subst hk
      rw [if_pos rfl]
      have hv : v0 = v := by
        rw [List.lookup] at hlk
        simpa using hlk
      subst hv
      rw [iconsOf_cons, iconsOf_cons, List.append_assoc]
      exact List.Perm.trans List.perm_append_comm
        (List.Perm.append_right _ List.perm_append_comm)
    · rw [if_neg hk]
      have hlk' : List.lookup k rest = some v := by
        rw [List.lookup] at hlk
        have hb : (k == k0) = false := by
          simp only [beq_eq_false_iff_ne, ne_eq]
          exact fun hc => hk hc.symm
        rwa [hb] at hlk
      have hnd' : (rest.map Prod.fst).Nodup := by
        simpa using hnd.of_cons
      rw [iconsOf_cons, iconsOf_cons, List.append_assoc, List.append_assoc]
      exact List.Perm.append_left _ (ih hnd' hlk')

lemma reassign_step_perm (v2d vpar : List (String × String))
    (vch : List (String × List String)) (root : Option String) (fuel : Nat)
    (m : NodeMap) (mid : String) (hnd : (m.map Prod.fst).Nodup) :
    List.Perm (iconsOf (reassign_icon_step v2d vpar vch root fuel m mid)) (iconsOf m) ∧
      (reassign_icon_step v2d vpar vch root fuel m mid).map Prod.fst = m.map Prod.fst := by
  cases hlk : List.lookup mid m with
  | none =>
    simp only [reassign_icon_step, hlk]
    exact ⟨List.Perm.refl _, by simp⟩
  | some node =>
    simp only [reassign_icon_step, hlk]
    by_cases hic : node.icon.isSome = true
    case neg => rw [if_neg hic]; exact ⟨List.Perm.refl _, by simp⟩
    rw [if_pos hic]
    cases hfd : find_data_owner v2d vpar vch root fuel mid with
    | none => simp only [hfd]; exact ⟨List.Perm.refl _, by simp⟩
    | some owner =>
      simp only [hfd]
      by_cases hom : owner ≠ mid
      case neg => rw [if_neg hom]; exact ⟨List.Perm.refl _, by simp⟩
      rw [if_pos hom]
      cases hlo : List.lookup owner m with
      | none => simp only [hlo]; exact ⟨List.Perm.refl _, by simp⟩
      | some ow =>
        simp only [hlo]
        by_cases hoi : ow.icon = none
        case neg => rw [if_neg hoi]; exact ⟨List.Perm.refl _, by simp⟩
        rw [if_pos hoi]
        have hmidne : mid ≠ owner := fun hc => hom hc.symm
        have hk1 : ((setNode m owner
            { ow with icon := node.icon, icon_alt := node.icon_alt }).map
              Prod.fst).Nodup := by
          rw [keys_setNode]; exact hnd
        have hmid1 : List.lookup mid (setNode m owner
            { ow with icon := node.icon, icon_alt := node.icon_alt }) = some node := by
          rw [lookup_setNode_ne hmidne]; exact hlk
        have hp1 := iconsOf_setNode
          { ow with icon := node.icon, icon_alt := node.icon_alt } hnd hlo
        have hp2 := iconsOf_setNode
          { node with icon := none, icon_alt := none } hk1 hmid1
        have hp1' : List.Perm
            (iconsOf (setNode m owner
              { ow with icon := node.icon, icon_alt := node.icon_alt }))
            (iconsOf m ++ node.icon.toList) := by
          simpa [hoi] using hp1
        have hp2' : List.Perm
            (iconsOf (setNode (setNode m owner
                { ow with icon := node.icon, icon_alt := node.icon_alt }) mid
                { node with icon := none, icon_alt := none }) ++ node.icon.toList)
            (iconsOf (setNode m owner
              { ow with icon := node.icon, icon_alt := node.icon_alt })) := by
          simpa using hp2
        refine ⟨?_, by rw [keys_setNode, keys_setNode]⟩
        exact (List.perm_append_right_iff _).mp (hp2'.trans hp1')

lemma reassign_fold_perm (v2d vpar : List (String × String))
    (vch : List (String × List String)) (root : Option String) (fuel : Nat) :
    ∀ (keys : List String) (m : NodeMap), (m.map Prod.fst).Nodup →
      List.Perm
        (iconsOf (keys.foldl (reassign_icon_step v2d vpar vch root fuel) m))
        (iconsOf m) ∧
      (keys.foldl (reassign_icon_step v2d vpar vch root fuel) m).map Prod.fst =
        m.map Prod.fst := by
  intro keys
  induction keys with
  | nil => intro m _; exact ⟨List.Perm.refl _, by simp⟩
  | cons k ks ih =>
    intro m hnd
    rw [List.foldl_cons]
    have hstep := reassign_step_perm v2d vpar vch root fuel m k hnd
    have hnd' : ((reassign_icon_step v2d vpar vch root fuel m k).map Prod.fst).Nodup := by
      rw [hstep.2]; exact hnd
    have hrec := ih _ hnd'
    exact ⟨hrec.1.trans hstep.1, by rw [hrec.2, hstep.2]⟩

lemma step_of_not_applicable (v2d vpar : List (String × String))
    (vch : List (String × List String)) (root : Option String) (fuel : Nat)
    (m : NodeMap) (mid : String)
    (h : transferApplicable v2d vpar vch root fuel m mid = false) :
    reassign_icon_step v2d vpar vch root fuel m mid = m := by
  cases hlk : List.lookup mid m with
  | none => simp only [reassign_icon_step, hlk]
  | some node =>
    simp only [transferApplicable, hlk] at h
    simp only [reassign_icon_step, hlk]
    by_cases hic : node.icon.isSome = true
    case neg => rw [if_neg hic]
    rw [if_pos hic]
    rw [hic, Bool.true_and] at h
    cases hfd : find_data_owner v2d vpar vch root fuel mid with
    | none => simp only [hfd]
    | some owner =>
      rw [hfd] at h
      simp only [hfd]
      by_cases hom : owner ≠ mid
      case neg => rw [if_neg hom]
      rw [if_pos hom]
      have hbm : (owner != mid) = true := by simpa using hom
      simp only [hbm, Bool.true_and] at h
      cases hlo : List.lookup owner m with
      | none => simp only [hlo]
      | some ow =>
        rw [hlo] at h
        simp only [hlo]
        by_cases hoi : ow.icon = none
        · exact absurd h (by simp [hoi])
        · rw [if_neg hoi]

lemma fold_stable_eq (v2d vpar : List (String × String))
    (vch : List (String × List String)) (root : Option String) (fuel : Nat) :
    ∀ (keys : List String) (m : NodeMap),
      (∀ k ∈ keys, transferApplicable v2d vpar vch root fuel m k = false) →
      keys.foldl (reassign_icon_step v2d vpar vch root fuel) m = m := by
  intro keys
  induction keys with
  | nil => intro m _; rfl
  | cons k ks ih =>
    intro m h
    rw [List.foldl_cons,
      step_of_not_applicable v2d vpar vch root fuel m k (h k (by simp))]
    exact ih m (fun k2 hk2 => h k2 (List.mem_cons_of_mem _ hk2))

lemma stableMap_fixed (v2d vpar : List (String × String))
    (vch : List (String × List String)) (root : Option String) (fuel : Nat)
    (m : NodeMap) (h : stableMap v2d vpar vch root fuel m = true) :
    reassign_icons v2d vpar vch root fuel m = m := by
  rw [reassign_icons]
  apply fold_stable_eq
  intro k hk
  have hh := (List.all_eq_true.mp h) k hk
  simpa using hh

/-- C3 (amended): the re-association pass transfers an icon only to a resolved
owner that does not already carry one (first writer wins) and clears the
donor afterwards, so (i) the multiset of icons is preserved — in particular,
pairwise-distinct icon paths stay pairwise distinct, and since extracted
icons carry distinct `sa_{modelId}` filenames, no icon path appears on two
nodes of the output; and (ii) the pass is idempotent whenever its result is
stable (no applicable transfer remains), which holds for ordinary diagrams
whose data-node ids are not themselves visual ids of the presentation graph.
Unconditional idempotence, as claimed, is refuted by `C3_counterexample`. -/
theorem C3_icon_reassignment :
    (∀ (v2d vpar : List (String × String)) (vch : List (String × List String))
        (root : Option String) (fuel : Nat) (m : NodeMap),
        (m.map Prod.fst).Nodup →
        List.Perm (iconsOf (reassign_icons v2d vpar vch root fuel m)) (iconsOf m) ∧
        ((iconsOf m).Nodup →
          (iconsOf (reassign_icons v2d vpar vch root fuel m)).Nodup)) ∧
    (∀ (v2d vpar : List (String × String)) (vch : List (String × List String))
        (root : Option String) (fuel : Nat) (m : NodeMap),
        stableMap v2d vpar vch root fuel (reassign_icons v2d vpar vch root fuel m) = true →
        reassign_icons v2d vpar vch root fuel
            (reassign_icons v2d vpar vch root fuel m) =
          reassign_icons v2d vpar vch root fuel m) := by
  constructor
  · intro v2d vpar vch root fuel m hnd
    rw [reassign_icons]
    have h := reassign_fold_perm v2d vpar vch root fuel (m.map Prod.fst) m hnd
    exact ⟨h.1, fun hd => (h.1.nodup_iff).mpr hd⟩
  · intro v2d vpar vch root fuel m hst
    exact stableMap_fixed v2d vpar vch root fuel _ hst

/-- Counterexample graph: visual point `X` carries an icon; `presOf` maps
`X` to data node `O` and — on this crafted graph — also maps `O` to `O2`. -/
def c3m0 : NodeMap :=
  [("O", ⟨"node", "o", [], none, none⟩),
   ("O2", ⟨"node", "p", [], none, none⟩),
   ("X", ⟨"node", "", [], some "./sa_X.png", some "alt"⟩)]

/-- The `presOf`-derived `visual_to_data` map of the counterexample graph. -/
def c3v2d : List (String × String) := [("X", "O"), ("O", "O2")]

/-- `c3m0` after one pass: the icon has moved from `X` to `O`. -/
def c3m1 : NodeMap :=
  [("O", ⟨"node", "o", [], some "./sa_X.png", some "alt"⟩),
   ("O2", ⟨"node", "p", [], none, none⟩),
   ("X", ⟨"node", "", [], none, none⟩)]

/-- C3 counterexample: on `c3m0` the first pass moves the icon from `X` to
`O`; on the result the pass finds that `O` itself resolves to owner `O2` and
moves the icon again, so running the owner-resolution-and-transfer pass a
second time on the resulting node map changes it — refuting the claimed
unconditional idempotence. -/
theorem C3_counterexample :
    reassign_icons c3v2d [] [] none 5 c3m0 = c3m1 ∧
    (reassign_icons c3v2d [] [] none 5 c3m1 == c3m1) = false := by
  exact ⟨by decide, by decide⟩

/-- Ordinary witness graph: visual `X` (with icon) maps via `presOf` to data
node `O`; `O` is not itself a visual id. -/
def c3w0 : NodeMap :=
  [("O", ⟨"node", "o", [], none, none⟩),
   ("X", ⟨"node", "", [], some "./sa_X.png", none⟩)]

/-- `visual_to_data` of the witness graph. -/
def c3wv2d : List (String × String) := [("X", "O")]

/-- Witness for C3: on the ordinary graph the pass preserves the icon multiset
and distinctness, and its result is stable, so the second pass changes
nothing. -/
theorem C3_icon_reassignment_witness :
    (List.Perm (iconsOf (reassign_icons c3wv2d [] [] none 5 c3w0)) (iconsOf c3w0) ∧
      ((iconsOf c3w0).Nodup →
        (iconsOf (reassign_icons c3wv2d [] [] none 5 c3w0)).Nodup)) ∧
    reassign_icons c3wv2d [] [] none 5 (reassign_icons c3wv2d [] [] none 5 c3w0) =
      reassign_icons c3wv2d [] [] none 5 c3w0 := by
  constructor
  · exact C3_icon_reassignment.1 c3wv2d [] [] none 5 c3w0 (by decide)
  · exact C3_icon_reassignment.2 c3wv2d [] [] none 5 c3w0 (by decide)

/-! ### Tree emission (`build_node`, lines 542-568, and the `nodes` list with
its flat fallback, lines 562-584) -/

/-- An emitted SmartArt node (the dict built by `build_node`): truncated id,
text, nesting level, surviving children, icon fields. -/
inductive EmitNode where
  | mk (id : String) (text : String) (level : Nat) (children : List EmitNode)
      (icon : Option String) (icon_alt : Option String)
deriving Repr

/-- The recursive pruning invariant: non-empty text or an icon, at every
emitted node of the subtree. -/
inductive EmitOk : EmitNode → Prop where
  | intro {id text : String} {level : Nat} {children : List EmitNode}
      {icon icon_alt : Option String} :
      (text ≠ "" ∨ icon ≠ none) →
      (∀ c ∈ children, EmitOk c) →
      EmitOk (.mk id text level children icon icon_alt)

/-- `build_node(mid, level)`: `None` for a missing or non-`node` point and
for an empty-text, icon-less point (pruning the whole subtree); otherwise the
dict with the recursively surviving children.  `fuel` bounds the recursion
depth (Python recurses unboundedly; every theorem holds for every fuel). -/
def build_node (m : NodeMap) : Nat → String → Nat → Option EmitNode
  | 0, _, _ => none
  | fuel + 1, mid, level =>
    match List.lookup mid m with
    | none => none
    | some node =>
      if node.ntype = "node" then
        if node.text = "" ∧ node.icon = none then none
        else
          some (.mk (takeStr 8 mid) node.text level
            (node.children_ids.filterMap (fun cid => build_node m fuel cid (level + 1)))
            node.icon node.icon_alt)
      else none

/-- The doc-rooted walk (`if doc_node and doc_node in node_map:` then
`build_node` over its children, lines 562-568); yields `[]` when the doc id
is falsy, missing, or every child is pruned. -/
def smartArtTree (m : NodeMap) (fuel : Nat) : Option String → List EmitNode
  | some d =>
    if d ≠ "" then
      match List.lookup d m with
      | some dn => dn.children_ids.filterMap (fun cid => build_node m fuel cid 0)
      | none => []
    else []
  | none => []

/-- The `nodes` list: the doc-rooted walk, falling back to the flat list of
all `node`-typed points with text or an icon when the walk yields nothing
(lines 570-581). -/
def smartArtNodes (m : NodeMap) (fuel : Nat) (doc_node : Option String) :
    List EmitNode :=
  if (smartArtTree m fuel doc_node).isEmpty then
    m.filterMap (fun kv =>
      if kv.2.ntype = "node" && (kv.2.text != "" || kv.2.icon.isSome) then
        some (.mk (takeStr 8 kv.1) kv.2.text 0 [] kv.2.icon kv.2.icon_alt)
      else none)
  else smartArtTree m fuel doc_node

lemma build_node_ok :
    ∀ (fuel : Nat) (m : NodeMap) (mid : String) (level : Nat) (n : EmitNode),
      build_node m fuel mid level = some n → EmitOk n := by
  intro fuel
  induction fuel with
  | zero => intro m mid level n h; simp [build_node] at h
  | succ fuel ih =>
    intro m mid level n h
    cases hlk : List.lookup mid m with
    | none => simp [build_node, hlk] at h
    | some node =>
      simp only [build_node, hlk] at h
      by_cases ht : node.ntype = "node"
      case neg => rw [if_neg ht] at h; simp at h
      rw [if_pos ht] at h
      by_cases hp : node.text = "" ∧ node.icon = none
      · rw [if_pos hp] at h; simp at h
      · rw [if_neg hp] at h
        rcases Option.some.inj h with rfl
        refine EmitOk.intro ?_ ?_
        · rcases not_and_or.mp hp with h1 | h1
          · exact Or.inl h1
          · exact Or.inr h1
        · intro c hc
          rcases List.mem_filterMap.mp hc with ⟨cid, hcid, hbc⟩
          exact ih m cid (level + 1) c hbc

lemma flat_fallback_ok {m : NodeMap} {n : EmitNode}
    (hn : n ∈ m.filterMap (fun kv =>
      if kv.2.ntype = "node" && (kv.2.text != "" || kv.2.icon.isSome) then
        some (.mk (takeStr 8 kv.1) kv.2.text 0 [] kv.2.icon kv.2.icon_alt)
      else none)) : EmitOk n := by
  rcases List.mem_filterMap.mp hn with ⟨kv, hkv, hf⟩
  by_cases hc : (kv.2.ntype = "node" && (kv.2.text != "" || kv.2.icon.isSome)) = true
  · rw [if_pos hc] at hf
    rcases Option.some.inj hf with rfl
    refine EmitOk.intro ?_ (by simp)
    rcases Bool.and_eq_true_iff.mp hc with ⟨_, hor⟩
    rcases Bool.or_eq_true_iff.mp hor with h1 | h1
    · exact Or.inl (by simpa using h1)
    · exact Or.inr (by simp [Option.isSome_iff_exists] at h1; rcases h1 with ⟨x, hx⟩; simp [hx])
  · rw [if_neg hc] at hf
    simp at hf

/-- C2 (amended): a diagram node with empty text and no icon is pruned
together with its ENTIRE subtree — its children are not considered (the
claimed promotion is refuted by `C2_counterexample`); consequently every node
emitted by the doc-rooted walk or by the flat fallback has non-empty text or
a non-null icon, recursively. -/
theorem C2_pruning_invariant :
    (∀ (m : NodeMap) (fuel : Nat) (doc : Option String) (n : EmitNode),
        n ∈ smartArtNodes m fuel doc → EmitOk n) ∧
    (∀ (m : NodeMap) (fuel : Nat) (mid : String) (level : Nat) (node : DgmNode),
        List.lookup mid m = some node → node.text = "" → node.icon = none →
        build_node m fuel mid level = none) := by
  constructor
  · intro m fuel doc n hn
    simp only [smartArtNodes] at hn
    split at hn
    · exact flat_fallback_ok hn
    · cases doc with
      | none => simp [smartArtTree] at hn
      | some d =>
        simp only [smartArtTree] at hn
        by_cases hd : d ≠ ""
        case neg => rw [if_neg hd] at hn; simp at hn
        rw [if_pos hd] at hn
        cases hlk : List.lookup d m with
        | none => rw [hlk] at hn; simp at hn
        | some dn =>
          rw [hlk] at hn
          rcases List.mem_filterMap.mp hn with ⟨cid, hcid, hbc⟩
          exact build_node_ok fuel m cid 0 n hbc
  · intro m fuel mid level node hlk htext hicon
    cases fuel with
    | zero => rfl
    | succ fuel =>
      simp only [build_node, hlk]
      by_cases ht : node.ntype = "node"
      · rw [if_pos ht, if_pos ⟨htext, hicon⟩]
      · rw [if_neg ht]

/-- Counterexample diagram: `doc` point `D` has children `A` (empty text, no
icon, but with child `B` carrying text) and `C` (with text). -/
def c2Map : NodeMap :=
  [("D", ⟨"doc", "", ["A", "C"], none, none⟩),
   ("A", ⟨"node", "", ["B"], none, none⟩),
   ("B", ⟨"node", "x", [], none, none⟩),
   ("C", ⟨"node", "y", [], none, none⟩)]

/-- C2 counterexample: node `B` would survive on its own (non-empty text),
yet because its parent `A` has empty text and no icon, `A` is pruned with its
whole subtree and `B` is never considered: the emitted node list is just
`C`.  This refutes the claimed promotion ("its children are still
considered") and the claim that ONLY a node with no surviving children is
pruned together with its subtree. -/
theorem C2_counterexample :
    smartArtNodes c2Map 10 (some "D") = [.mk "C" "y" 0 [] none none] ∧
    build_node c2Map 10 "B" 1 = some (.mk "B" "x" 1 [] none none) ∧
    build_node c2Map 10 "A" 0 = none := by
  exact ⟨by rfl, by rfl, by rfl⟩

/-- Witness for C2: the invariant applied to the emitted node `C` of the
counterexample diagram, and the subtree-pruning conjunct applied at `A`. -/
theorem C2_pruning_invariant_witness :
    EmitOk (.mk "C" "y" 0 [] none none) ∧
    build_node c2Map 10 "A" 0 = none := by
  constructor
  · exact C2_pruning_invariant.1 c2Map 10 (some "D") (.mk "C" "y" 0 [] none none)
      (by simp [show smartArtNodes c2Map 10 (some "D") =
        [EmitNode.mk "C" "y" 0 [] none none] from rfl])
  · exact C2_pruning_invariant.2 c2Map 10 "A" 0 ⟨"node", "", ["B"], none, none⟩
      (by rfl) (by rfl) (by rfl)

/-! ## Image extraction (`extract_image`, lines 696-772) -/

/-- The inputs `extract_image` reads from an image shape: the `python-pptx`
image extension, content type, raw bytes, the shape name, and the outcome of
the Pillow fallback conversion (`none` models `Image.open`/`img.save`
raising; the conversion itself is an external library call). -/
structure ImgShape where
  ext : String
  content_type : String
  blob : List Nat
  name : String
  pillowPng : Option (List Nat)
deriving DecidableEq, Repr

/-- The serialized image content block.  With analysis disabled (the default
`ANALYZE_IMAGES = False`), `description` stays `None` and no quote fields are
added. -/
structure ImageBlock where
  src : String
  alt : String
  caption : Option String
  description : Option String
deriving DecidableEq, Repr

/-- `extract_image`: EMF/WMF shapes first try the embedded-raster recovery,
then Pillow rasterization; on double failure the code logs a warning and
falls through with the ORIGINAL blob and extension.  Returns the content
block and the files written (filename, bytes). -/
def extract_image (shape : ImgShape) (slide_num shape_idx : Nat) :
    Option ImageBlock × List (String × List Nat) :=
  let be : List Nat × String :=
    if shape.ext = "emf" ∨ shape.ext = "wmf" ∨ shape.content_type = "image/x-emf" ∨
        shape.content_type = "image/x-wmf" then
      match extract_emf_embedded_image shape.blob with
      | some (b, e) => (b, e)
      | none =>
        match shape.pillowPng with
        | some png => (png, "png")
        | none => (shape.blob, shape.ext)
    else (shape.blob, shape.ext)
  let filename := "slide_" ++ toString slide_num ++ "_" ++ toString shape_idx ++
    "." ++ be.2
  (some { src := "./" ++ filename,
          alt := if shape.name = "" then "Slide " ++ toString slide_num ++ " image"
                 else shape.name,
          caption := none, description := none },
   [(filename, be.1)])

/-- C8 (amended): for an EMF/WMF image shape where embedded-raster recovery
finds nothing and the Pillow fallback also fails, the code logs a warning
but does NOT skip the image: it writes the original metafile bytes under the
original extension and still emits an ImageBlock referencing that file (the
failure is indeed never fatal — the whole body is inside try/except, modelled
total).  The claim's "no image file is written and no ImageBlock is emitted"
is refuted by `C8_counterexample`. -/
theorem C8_emf_double_failure :
    ∀ (shape : ImgShape) (n idx : Nat),
      (shape.ext = "emf" ∨ shape.ext = "wmf" ∨ shape.content_type = "image/x-emf" ∨
        shape.content_type = "image/x-wmf") →
      extract_emf_embedded_image shape.blob = none →
      shape.pillowPng = none →
      extract_image shape n idx =
        (some { src := "./" ++ ("slide_" ++ toString n ++ "_" ++ toString idx ++
                  "." ++ shape.ext),
                alt := if shape.name = "" then "Slide " ++ toString n ++ " image"
                       else shape.name,
                caption := none, description := none },
         [("slide_" ++ toString n ++ "_" ++ toString idx ++ "." ++ shape.ext,
           shape.blob)]) := by
  intro shape n idx hemf hemb hpil
  simp only [extract_image, if_pos hemf, hemb, hpil]

/-- Witness for C8: a concrete EMF shape (3 junk bytes, Pillow failing) still
yields an ImageBlock and one written `.emf` file. -/
theorem C8_emf_double_failure_witness :
    extract_image ⟨"emf", "image/x-emf", [1, 2, 3], "pic", none⟩ 1 0 =
      (some { src := "./" ++ ("slide_" ++ toString 1 ++ "_" ++ toString 0 ++
                "." ++ "emf"),
              alt := "pic", caption := none, description := none },
       [("slide_" ++ toString 1 ++ "_" ++ toString 0 ++ "." ++ "emf",
         [1, 2, 3])]) := by
  have h := C8_emf_double_failure ⟨"emf", "image/x-emf", [1, 2, 3], "pic", none⟩ 1 0
    (Or.inl rfl) (by rfl) (by rfl)
  simpa using h

/-- C8 counterexample: on double conversion failure the claim predicts no
written file and no emitted block, but the code writes `slide_1_0.emf` with
the original bytes and returns an ImageBlock pointing at it. -/
theorem C8_counterexample :
    extract_emf_embedded_image ([] : List Nat) = none ∧
    (extract_image ⟨"emf", "image/x-emf", [], "", none⟩ 1 0).2 =
      [("slide_1_0.emf", [])] ∧
    (extract_image ⟨"emf", "image/x-emf", [], "", none⟩ 1 0).1 =
      some { src := "./slide_1_0.emf", alt := "Slide 1 image",
             caption := none, description := none } := by
  exact ⟨rfl, by rfl, by rfl⟩

/-! ## Shape Walker (`process_slide`, lines 901-1039).

Calls the dispatch wraps in a specialized extractor with its own internal
try/except (video, image, SmartArt, auto shape) are modelled as total
`Option` fields, `none` covering both absence and an internally caught
failure.  Attribute accesses the dispatch performs bare (placeholder/title
reads, `has_table` and the table cells, text-frame reads) are `Step`s and
may raise. -/

/-- Outcome of a bare Python step: the value, or a raised exception. -/
inductive Step (α : Type) where
  | ok (val : α)
  | raises
deriving DecidableEq, Repr

/-- Title placeholder data: `placeholder_format.type`, whether the shape has
a text frame, and the cleaned title text (`.replace('\x0b', '\n').strip()`
modelled as given). -/
structure PlaceholderInfo where
  ptype : Nat
  hasTextFrame : Bool
  text : String
deriving DecidableEq, Repr

/-- A serialized list item (`{'text': ..., 'children': [], 'runs'?}`). -/
structure ListItemM where
  text : String
  runs : Option (List RunDict)
deriving DecidableEq, Repr

/-- Content blocks appended by the shape dispatch. -/
inductive CBlock where
  | video (src title : String) (isLink : Bool)
  | image (blk : ImageBlock)
  | tableHeading (text : String) (level : Nat)
  | smartArt (layout : String) (nodes : List EmitNode)
  | shapeBlk (shape_type shape_name : String)
  | heading (text : String) (level : Nat) (runs : Option (List RunDict))
  | listBlk (items : List ListItemM)

/-- One shape as the dispatch loop reads it. -/
structure ShapeM where
  videoBlock : Option CBlock
  placeholder : Step (Option PlaceholderInfo)
  hasImage : Bool
  imageBlock : Option CBlock
  hasTable : Step Bool
  tableRows : Step (List (List String))
  smartArtBlock : Option CBlock
  autoShapeBlock : Option CBlock
  textFrame : Step (Option (String × List ParaIn))

/-- The per-slide accumulator: captured title and content array. -/
structure SlideAcc where
  title : Option String
  content : List CBlock

/-- Items of an emitted ListBlock (text plus optional runs, empty children). -/
def mkItems (items : List ParaItem) : List ListItemM :=
  items.map (fun p => ⟨p.text, p.runs⟩)

/-- Default arm of the dispatch (lines 991-1018): heading for a single
level-0 paragraph, else a bulleted list. -/
def dispatchText (acc : SlideAcc) (s : ShapeM) : Step SlideAcc :=
  match s.textFrame with
  | .raises => .raises
  | .ok tf =>
    let tc : Option (List ParaItem) :=
      match tf with
      | some pr => extract_text_from_shape pr.2
      | none => none
    match tc with
    | some items =>
      if items.length = 1 ∧ (items.headD ⟨"", 0, false, none⟩).level = 0 then
        .ok ⟨acc.title, acc.content ++
          [CBlock.heading (items.headD ⟨"", 0, false, none⟩).text 2
            (items.headD ⟨"", 0, false, none⟩).runs]⟩
      else .ok ⟨acc.title, acc.content ++ [CBlock.listBlk (mkItems items)]⟩
    | none => .ok acc

/-- Auto-shape arm (lines 969-989): the shape block, then, if the shape also
carries readable text, a following ListBlock. -/
def dispatchAuto (acc : SlideAcc) (s : ShapeM) : Step SlideAcc :=
  match s.autoShapeBlock with
  | some sb =>
    match s.textFrame with
    | .raises => .raises
    | .ok (some pr) =>
      if pr.1 ≠ "" then
        match extract_text_from_shape pr.2 with
        | some items =>
          .ok ⟨acc.title, acc.content ++ [sb, CBlock.listBlk (mkItems items)]⟩
        | none => .ok ⟨acc.title, acc.content ++ [sb]⟩
      else .ok ⟨acc.title, acc.content ++ [sb]⟩
    | .ok none => .ok ⟨acc.title, acc.content ++ [sb]⟩
  | none => dispatchText acc s

/-- SmartArt arm (lines 963-967). -/
def dispatchSmart (acc : SlideAcc) (s : ShapeM) : Step SlideAcc :=
  match s.smartArtBlock with
  | some b => .ok ⟨acc.title, acc.content ++ [b]⟩
  | none => dispatchAuto acc s

/-- Table arm (lines 949-961): rows joined with `' | '`, encoded as a level-3
heading; `continue` regardless. -/
def dispatchTable (acc : SlideAcc) (s : ShapeM) : Step SlideAcc :=
  match s.hasTable with
  | .raises => .raises
  | .ok true =>
    match s.tableRows with
    | .raises => .raises
    | .ok rows =>
      let table_text := rows.map (fun row => joinSep " | " row)
      if table_text ≠ [] then
        .ok ⟨acc.title, acc.content ++
          [CBlock.tableHeading (joinSep "\n" table_text) 3]⟩
      else .ok acc
  | .ok false => dispatchSmart acc s

/-- Image arm (lines 942-947): `continue` whether or not the (internally
guarded) extraction produced a block. -/
def dispatchImage (acc : SlideAcc) (s : ShapeM) : Step SlideAcc :=
  if s.hasImage then
    match s.imageBlock with
    | some ib => .ok ⟨acc.title, acc.content ++ [ib]⟩
    | none => .ok acc
  else dispatchTable acc s

/-- One iteration of the shape loop: video first (no `continue`), then the
title placeholder (types 1 and 3 captured and excluded from content), then
the image/table/SmartArt/auto-shape/text chain. -/
def processShape (acc : SlideAcc) (s : ShapeM) : Step SlideAcc :=
  let acc1 : SlideAcc :=
    ⟨acc.title, match s.videoBlock with
      | some vb => acc.content ++ [vb]
      | none => acc.content⟩
  match s.placeholder with
  | .raises => .raises
  | .ok (some info) =>
    if info.ptype = 1 ∨ info.ptype = 3 then
      .ok ⟨if info.hasTextFrame then some info.text else acc1.title, acc1.content⟩
    else dispatchImage acc1 s
  | .ok none => dispatchImage acc1 s

/-- The shape loop; a raise in any iteration propagates. -/
def processShapes : List ShapeM → SlideAcc → Step SlideAcc
  | [], acc => .ok acc
  | s :: rest, acc =>
    match processShape acc s with
    | .raises => .raises
    | .ok acc1 => processShapes rest acc1

/-- The per-slide result dict (lines 1023-1029). -/
structure SlideData where
  order : Nat
  title : String
  layout : String
  notes : String
  content : List CBlock

/-- `process_slide`: shapes arrive already stably sorted by (top, left); the
title falls back to `"Slide {n}"` when unset or empty
(`title or f"Slide {slide_num}"`, line 1025). -/
def process_slide (shapes : List ShapeM) (slide_num : Nat)
    (notes layoutName : String) : Step SlideData :=
  match processShapes shapes ⟨none, []⟩ with
  | .raises => .raises
  | .ok acc =>
    .ok { order := slide_num,
          title := match acc.title with
            | some t => if t = "" then "Slide " ++ toString slide_num else t
            | none => "Slide " ++ toString slide_num,
          layout := layoutName,
          notes := notes,
          content := acc.content }

/-! ### Lemmas about the dispatch chain -/

lemma dispatchText_ok (acc : SlideAcc) (s : ShapeM)
    (h4 : s.textFrame ≠ Step.raises) :
    ∃ a, dispatchText acc s = Step.ok a := by
  cases htf : s.textFrame with
  | raises => exact absurd htf h4
  | ok tf =>
    simp only [dispatchText, htf]
    cases tf with
    | none => exact ⟨acc, rfl⟩
    | some pr =>
      cases hc : extract_text_from_shape pr.2 with
      | none => simp only [hc]; exact ⟨acc, rfl⟩
      | some items =>
        simp only [hc]
        by_cases hone : items.length = 1 ∧ (items.headD ⟨"", 0, false, none⟩).level = 0
        · simp only [if_pos hone]; exact ⟨_, rfl⟩
        · simp only [if_neg hone]; exact ⟨_, rfl⟩

lemma dispatchAuto_ok (acc : SlideAcc) (s : ShapeM)
    (h4 : s.textFrame ≠ Step.raises) :
    ∃ a, dispatchAuto acc s = Step.ok a := by
  cases hab : s.autoShapeBlock with
  | none => simp only [dispatchAuto, hab]; exact dispatchText_ok acc s h4
  | some sb =>
    cases htf : s.textFrame with
    | raises => exact absurd htf h4
    | ok tf =>
      simp only [dispatchAuto, hab, htf]
      cases tf with
      | none => exact ⟨_, rfl⟩
      | some pr =>
        by_cases hp : pr.1 ≠ ""
        · simp only [if_pos hp]
          cases hc : extract_text_from_shape pr.2 with
          | none => simp only [hc]; exact ⟨_, rfl⟩
          | some items => simp only [hc]; exact ⟨_, rfl⟩
        · simp only [if_neg hp]; exact ⟨_, rfl⟩

lemma dispatchSmart_ok (acc : SlideAcc) (s : ShapeM)
    (h4 : s.textFrame ≠ Step.raises) :
    ∃ a, dispatchSmart acc s = Step.ok a := by
  cases hsb : s.smartArtBlock with
  | none => simp only [dispatchSmart, hsb]; exact dispatchAuto_ok acc s h4
  | some b => simp only [dispatchSmart, hsb]; exact ⟨_, rfl⟩

lemma dispatchTable_ok (acc : SlideAcc) (s : ShapeM)
    (h2 : s.hasTable ≠ Step.raises) (h3 : s.tableRows ≠ Step.raises)
    (h4 : s.textFrame ≠ Step.raises) :
    ∃ a, dispatchTable acc s = Step.ok a := by
  cases hht : s.hasTable with
  | raises => exact absurd hht h2
  | ok hb =>
    cases hb with
    | false => simp only [dispatchTable, hht]; exact dispatchSmart_ok acc s h4
    | true =>
      cases htr : s.tableRows with
      | raises => exact absurd htr h3
      | ok rows =>
        simp only [dispatchTable, hht, htr]
        by_cases he : rows.map (fun row => joinSep " | " row) ≠ []
        · simp only [if_pos he]; exact ⟨_, rfl⟩
        · simp only [if_neg he]; exact ⟨_, rfl⟩

lemma dispatchImage_ok (acc : SlideAcc) (s : ShapeM)
    (h2 : s.hasTable ≠ Step.raises) (h3 : s.tableRows ≠ Step.raises)
    (h4 : s.textFrame ≠ Step.raises) :
    ∃ a, dispatchImage acc s = Step.ok a := by
  by_cases hi : s.hasImage = true
  · cases hib : s.imageBlock with
    | none => simp only [dispatchImage, if_pos hi, hib]; exact ⟨_, rfl⟩
    | some ib => simp only [dispatchImage, if_pos hi, hib]; exact ⟨_, rfl⟩
  · simp only [dispatchImage, if_neg hi]
    exact dispatchTable_ok acc s h2 h3 h4

lemma processShape_ok (acc : SlideAcc) (s : ShapeM)
    (h1 : s.placeholder ≠ Step.raises) (h2 : s.hasTable ≠ Step.raises)
    (h3 : s.tableRows ≠ Step.raises) (h4 : s.textFrame ≠ Step.raises) :
    ∃ a, processShape acc s = Step.ok a := by
  cases hph : s.placeholder with
  | raises => exact absurd hph h1
  | ok ph =>
    cases ph with
    | none =>
      simp only [processShape, hph]
      exact dispatchImage_ok _ s h2 h3 h4
    | some info =>
      simp only [processShape, hph]
      by_cases ht : info.ptype = 1 ∨ info.ptype = 3
      · simp only [if_pos ht]; exact ⟨_, rfl⟩
      · simp only [if_neg ht]
        exact dispatchImage_ok _ s h2 h3 h4

lemma processShapes_ok :
    ∀ (shapes : List ShapeM) (acc : SlideAcc),
      (∀ s ∈ shapes, s.placeholder ≠ Step.raises ∧ s.hasTable ≠ Step.raises ∧
        s.tableRows ≠ Step.raises ∧ s.textFrame ≠ Step.raises) →
      ∃ a, processShapes shapes acc = Step.ok a := by
  intro shapes
  induction shapes with
  | nil => intro acc _; exact ⟨acc, rfl⟩
  | cons s rest ih =>
    intro acc h
    have hs := h s (by simp)
    obtain ⟨a1, ha1⟩ := processShape_ok acc s hs.1 hs.2.1 hs.2.2.1 hs.2.2.2
    rw [processShapes, ha1]
    exact ih a1 (fun s2 hs2 => h s2 (List.mem_cons_of_mem _ hs2))

/-- C4 (amended): failures inside the specialized extractors (video, image,
SmartArt, auto shape, formatted runs) are caught where they occur and the
feature is skipped — modelled by those extractors being total — so a slide
whose shapes raise in none of the BARE dispatch steps always completes, no
matter how many extractors failed internally.  But the bare steps
(placeholder/title access, `has_table`, table cells, text-frame reads) have
no per-shape try/except: a failure there propagates and aborts the slide, as
`C4_counterexample` shows — refuting the claim that one bad shape never
aborts the slide. -/
theorem C4_shape_failure_policy :
    ∀ (shapes : List ShapeM) (n : Nat) (notes layout : String),
      (∀ s ∈ shapes, s.placeholder ≠ Step.raises ∧ s.hasTable ≠ Step.raises ∧
        s.tableRows ≠ Step.raises ∧ s.textFrame ≠ Step.raises) →
      ∃ sd, process_slide shapes n notes layout = Step.ok sd := by
  intro shapes n notes layout h
  obtain ⟨acc, hacc⟩ := processShapes_ok shapes ⟨none, []⟩ h
  rw [process_slide, hacc]
  exact ⟨_, rfl⟩

/-- A shape whose `shape.has_table` access raises; all extractors empty. -/
def c4BadShape : ShapeM :=
  ⟨none, Step.ok none, false, none, Step.raises, Step.raises, none, none,
   Step.ok none⟩

/-- C4 counterexample: the dispatch in `process_slide` has no per-shape
try/except; an exception raised by the bare `shape.has_table` access
propagates out of the shape loop and aborts the whole slide — refuting "a
failure while extracting a single shape is caught, … one bad shape never
aborts the slide". -/
theorem C4_counterexample :
    process_slide [c4BadShape] 1 "" "Layout" = Step.raises := by rfl

/-- A shape all of whose bare steps succeed (extractors may still have failed
internally: all are `none`). -/
def c4GoodShape : ShapeM :=
  ⟨none, Step.ok none, false, none, Step.ok false, Step.ok [], none, none,
   Step.ok none⟩

/-- Witness for C4: a slide of one well-behaved shape completes. -/
theorem C4_shape_failure_policy_witness :
    ∃ sd, process_slide [c4GoodShape] 1 "" "Layout" = Step.ok sd := by
  exact C4_shape_failure_policy [c4GoodShape] 1 "" "Layout" (by decide)

/-- C10: for every slide whose walk completes, if no title/center-title
placeholder set a title (or the captured title text is empty), the output
slide's `title` field is exactly `"Slide {n}"` with `n` the slide's 1-based
order — the serialized title is never absent or empty. -/
theorem C10_title_fallback :
    ∀ (shapes : List ShapeM) (n : Nat) (notes layout : String) (acc : SlideAcc)
      (sd : SlideData),
      processShapes shapes ⟨none, []⟩ = Step.ok acc →
      (acc.title = none ∨ acc.title = some "") →
      process_slide shapes n notes layout = Step.ok sd →
      sd.title = "Slide " ++ toString n := by
  intro shapes n notes layout acc sd hps htitle hsl
  rw [process_slide, hps] at hsl
  simp only [Step.ok.injEq] at hsl
  rw [← hsl]
  rcases htitle with h | h <;> simp [h]

/-- Witness for C10: an empty slide (no shapes, hence no title placeholder)
serializes with title `"Slide 2"`. -/
theorem C10_title_fallback_witness :
    ({ order := 2, title := "Slide " ++ toString 2, layout := "Layout",
       notes := "", content := [] } : SlideData).title = "Slide " ++ toString 2 := by
  exact C10_title_fallback [] 2 "" "Layout" ⟨none, []⟩ _ (by rfl) (Or.inl rfl) (by rfl)

/-! ## Section Detector (`extract_native_sections`, lines 1042-1085, and
`detect_sections`, lines 1088-1136) -/

/-- A native section after id → order resolution. -/
structure SecRaw where
  title : String
  slide_orders : List Nat
deriving DecidableEq, Repr

/-- `extract_native_sections`: builds the slide-id → 1-based-order map from
the deck, resolves each declared section's slide ids (dropping unknown ids),
keeps sorted non-empty order lists, and yields `none` when the container has
no section list or every declared section resolved empty. -/
def extract_native_sections (slideIds : List Nat)
    (sectionLst : Option (List (String × List Nat))) : Option (List SecRaw) :=
  match sectionLst with
  | none => none
  | some secs =>
    let idToOrder : List (Nat × Nat) := slideIds.enum.map (fun p => (p.2, p.1 + 1))
    let out := secs.filterMap (fun sec =>
      let orders := sortNat (sec.2.filterMap (fun sid => List.lookup sid idToOrder))
      if orders = [] then none else some ⟨sec.1, orders⟩)
    if out = [] then none else some out

/-- An output section: title and its slides. -/
structure SectionOut where
  title : String
  slides : List SlideData

/-- The fallback's section-header test (lines 1118-1122). -/
def is_section_header (sd : SlideData) : Bool :=
  strContains "section heading" sd.layout.toLower ||
  (sd.content.isEmpty && sd.title != "" &&
    (["title only", "title slide", "full blue background"].any
      (fun kw => strContains kw sd.layout.toLower)))

/-- The heuristic grouping loop (lines 1111-1134): a matching slide starts a
new section unless the current one is still empty; the trailing section is
flushed at the end. -/
def heuristic_sections : List SlideData → SectionOut → List SectionOut → List SectionOut
  | [], cur, acc => if cur.slides.isEmpty then acc else acc ++ [cur]
  | sd :: rest, cur, acc =>
    if is_section_header sd && !cur.slides.isEmpty then
      heuristic_sections rest ⟨sd.title, [sd]⟩ (acc ++ [cur])
    else
      heuristic_sections rest ⟨cur.title, cur.slides ++ [sd]⟩ acc

/-- `detect_sections`: the native path when native sections resolve (slides
looked up by order; orders produced by the pipeline are the distinct values
`1..N`, so `find?` is the dict lookup), else the heuristic fallback starting
from a "Main Content" section. -/
def detect_sections (slideIds : List Nat)
    (sectionLst : Option (List (String × List Nat)))
    (slides_data : List SlideData) : List SectionOut :=
  match extract_native_sections slideIds sectionLst with
  | some native =>
    native.filterMap (fun sec =>
      let ss := sec.slide_orders.filterMap
        (fun o => slides_data.find? (fun sd => sd.order == o))
      if ss.isEmpty then none else some ⟨sec.title, ss⟩)
  | none => heuristic_sections slides_data ⟨"Main Content", []⟩ []

/-- Concatenation of the slides of all sections, in order. -/
def allSlides (secs : List SectionOut) : List SlideData :=
  secs.foldr (fun s r => s.slides ++ r) []

lemma allSlides_append (a b : List SectionOut) :
    allSlides (a ++ b) = allSlides a ++ allSlides b := by
  induction a with
  | nil => rfl
  | cons s t ih =>
    simp only [List.cons_append, allSlides, List.foldr_cons] at *
    rw [ih, List.append_assoc]

lemma heuristic_flat :
    ∀ (slides : List SlideData) (cur : SectionOut) (acc : List SectionOut),
      allSlides (heuristic_sections slides cur acc) =
        allSlides acc ++ cur.slides ++ slides := by
  intro slides
  induction slides with
  | nil =>
    intro cur acc
    rw [heuristic_sections]
    by_cases hc : cur.slides.isEmpty = true
    · rw [if_pos hc]
      have he : cur.slides = [] := by simpa using hc
      simp [he]
    · rw [if_neg hc]
      rw [allSlides_append]
      simp [allSlides]
  | cons sd rest ih =>
    intro cur acc
    rw [heuristic_sections]
    by_cases hc : (is_section_header sd && !cur.slides.isEmpty) = true
    · rw [if_pos hc, ih, allSlides_append]
      simp [allSlides, List.append_assoc]
    · rw [if_neg hc, ih]
      simp [List.append_assoc]

/-- C1 (amended): in the heuristic fallback path (no native sections) the
detector partitions the deck exactly — concatenating the slides of the
returned sections in order yields the input slide list, so every slide lies
in exactly one section, sections are contiguous ranges of the original
order, and the multiset of orders equals that of the input (`{1..N}` as the
pipeline produces it).  The native path emits exactly the slides referenced
by the container's section list (sorted within each section), so there the
invariant holds only when that list references every slide exactly once in
contiguous runs; `C1_counterexample` shows a native list that omits a slide
and thereby drops it. -/
theorem C1_section_partition :
    ∀ (slideIds : List Nat) (sectionLst : Option (List (String × List Nat)))
      (slides_data : List SlideData),
      extract_native_sections slideIds sectionLst = none →
      allSlides (detect_sections slideIds sectionLst slides_data) = slides_data := by
  intro ids lst sdata hn
  simp only [detect_sections, hn]
  rw [heuristic_flat]
  simp [allSlides]

/-- Two slides of a deck, orders 1 and 2. -/
def c1Slides : List SlideData :=
  [⟨1, "One", "Layout", "", []⟩, ⟨2, "Two", "Layout", "", []⟩]

/-- C1 counterexample: a deck of two slides (ids 256, 257) whose native
section list references only slide id 256 — the detector returns one section
holding order 1 only, so slide 2 is assigned to no section, refuting "every
slide is assigned to exactly one section" for the native path. -/
theorem C1_counterexample :
    (allSlides (detect_sections [256, 257] (some [("A", [256])]) c1Slides)).map
      (fun sd => sd.order) = [1] ∧
    c1Slides.map (fun sd => sd.order) = [1, 2] := by
  exact ⟨by rfl, by rfl⟩

/-- Witness for C1: with no native section list the fallback partitions the
two-slide deck exactly. -/
theorem C1_section_partition_witness :
    extract_native_sections [] none = none ∧
    allSlides (detect_sections [] none c1Slides) = c1Slides := by
  exact ⟨rfl, C1_section_partition [] none c1Slides rfl⟩
